import Mathlib

/-!
# Service-account store and secrets test wiring

A shallow embedding of

* `pkg/services/serviceaccounts/database/database.go` (the SQL-backed
  service-account store), and
* `pkg/services/secrets/manager/helpers.go` (`SetupTestService`),

together with the properties stated about them.

Conventions of the embedding.

* A Go `error` is a `GoError`; the nil error is `none : Option GoError`.
* A Go pointer result that may be nil is an `Option`.
* `int64` values are `Int`: the code only stores, compares and passes them on.
* Calls into collaborators whose code is outside the embedded files (the SQL
  store, the database session) are parameters.  A collaborator with effects is
  a record of state-passing functions over an arbitrary state type `σ`.
* `context.Context` arguments are dropped: no embedded function inspects them.
-/

/-- A Go `error` value, represented by the text its `Error()` method returns. -/
structure GoError where
  msg : String
deriving DecidableEq, Repr

namespace fmt

/-- The call `fmt.Errorf(pre + "%v", err)` for a non-nil `err`: the verb prints
`err.Error()`, so the new error's text is `pre` followed by that text. -/
def Errorf (pre : String) (err : GoError) : GoError :=
  ⟨pre ++ err.msg⟩

end fmt

namespace models

/-- The type `models.RoleType` is a Go string type. -/
abbrev RoleType := String

/-- The fields of `models.GetOrgUsersQuery` that the store sets.  `Result` is
an output field and is modelled as part of what `GetOrgUsers` returns. -/
structure GetOrgUsersQuery where
  UserID : Int := 0
  OrgId : Int := 0
  IsServiceAccount : Bool := false
deriving DecidableEq, Repr

/-- The struct `models.CreateUserCommand`.  Its declaration lies outside the
embedded files; the fields are those of the upstream declaration, each
defaulting to its Go zero value, which is what a composite literal leaves in a
field it does not name. -/
structure CreateUserCommand where
  Email : String := ""
  Login : String := ""
  Name : String := ""
  Company : String := ""
  OrgId : Int := 0
  OrgName : String := ""
  Password : String := ""
  EmailVerified : Bool := false
  IsAdmin : Bool := false
  IsDisabled : Bool := false
  SkipOrgSetup : Bool := false
  DefaultOrgRole : String := ""
  IsServiceAccount : Bool := false
deriving DecidableEq, Repr

/-- The columns of `models.User` (table `user`) that the store reads. -/
structure User where
  Id : Int
  OrgId : Int
  Login : String
  Name : String
  IsServiceAccount : Bool
deriving DecidableEq, Repr

/-- The columns of `models.ApiKey` (table `api_key`) that the store reads.
`Expires` is a `*int64` (SQL NULL is `none`); `ServiceAccountId` is a nullable
column. -/
structure ApiKey where
  Id : Int
  OrgId : Int
  Name : String
  Key : String
  Role : RoleType
  Expires : Option Int
  ServiceAccountId : Option Int
deriving DecidableEq, Repr

end models

namespace serviceaccounts

/-- The fields of `serviceaccounts.CreateServiceaccountForm` that
`CreateServiceAccount` reads. -/
structure CreateServiceaccountForm where
  OrgID : Int
  Name : String
deriving DecidableEq, Repr

end serviceaccounts

namespace database

open models serviceaccounts

/-! ## `CreateServiceAccount` -/

/-- Embedding of `CreateServiceAccount`.  `CreateUser` is `s.sqlStore.CreateUser`
(its Go result pair `(*models.User, error)` is the pair returned here);
`uuid1` and `uuid2` are the texts of the two `uuid.New().String()` calls, in
evaluation order. -/
def CreateServiceAccount {U : Type}
    (CreateUser : CreateUserCommand → Option U × Option GoError)
    (uuid1 uuid2 : String) (sa : CreateServiceaccountForm) :
    Option U × Option GoError :=
  let cmd : CreateUserCommand :=
    { Login := "Service-Account-" ++ uuid1
      Name := sa.Name ++ "-Service-Account-" ++ uuid2
      OrgId := sa.OrgID
      IsServiceAccount := true }
  match CreateUser cmd with
  | (_, some err) => (none, some (fmt.Errorf "failed to create user: " err))
  | (newuser, none) => (newuser, none)

/-! ## `RetrieveServiceAccount` and `ListServiceAccounts` -/

/-- Embedding of `ListServiceAccounts`.  `GetOrgUsers` is
`s.sqlStore.GetOrgUsers`: it returns the value of `query.Result` after the call
and the call's error. -/
def ListServiceAccounts {D : Type}
    (GetOrgUsers : GetOrgUsersQuery → List D × Option GoError)
    (orgID : Int) : Option (List D) × Option GoError :=
  let query : GetOrgUsersQuery := { OrgId := orgID, IsServiceAccount := true }
  match GetOrgUsers query with
  | (_, some err) => (none, some err)
  | (result, none) => (some result, none)

/-- Embedding of `RetrieveServiceAccount`.  `ErrServiceAccountNotFound` is the
package-level error value of `serviceaccounts`, declared outside the embedded
files. -/
def RetrieveServiceAccount {D : Type} (ErrServiceAccountNotFound : GoError)
    (GetOrgUsers : GetOrgUsersQuery → List D × Option GoError)
    (orgID serviceAccountID : Int) : Option D × Option GoError :=
  let query : GetOrgUsersQuery :=
    { UserID := serviceAccountID, OrgId := orgID, IsServiceAccount := true }
  match GetOrgUsers query with
  | (_, some err) => (none, some err)
  | (result, none) =>
    if result.length ≠ 1 then (none, some ErrServiceAccountNotFound)
    else (result.head?, none)

/-! ## `deleteServiceAccountInTransaction` -/

/-- The two operations of `*sqlstore.DBSession` used by the deletion, over a
session state `σ`.

* `Get s orgID id` is
  `sess.Where("org_id = ? and id = ? and is_service_account = true", orgID, id).Get(&user)`:
  it returns `has`, the value of `user` after the call, and the error.
* `Exec s sql arg` is `sess.Exec(sql, arg)`; only its error is used. -/
structure DBSession (σ : Type) where
  Get : σ → Int → Int → (Bool × User × Option GoError) × σ
  Exec : σ → String → Int → Option GoError × σ

/-- The loop `for _, sql := range sqlstore.ServiceAccountDeletions()` of
`deleteServiceAccountInTransaction`, with its early return. -/
def execDeletions {σ : Type} (sess : DBSession σ) (userId : Int) :
    List String → σ → Option GoError × σ
  | [], s => (none, s)
  | sql :: rest, s =>
    match sess.Exec s sql userId with
    | (some err, s1) => (some err, s1)
    | (none, s1) => execDeletions sess userId rest s1

/-- Embedding of `deleteServiceAccountInTransaction`.  `deletions` is the list
returned by `sqlstore.ServiceAccountDeletions()`. -/
def deleteServiceAccountInTransaction {σ : Type} (ErrServiceAccountNotFound : GoError)
    (deletions : List String) (sess : DBSession σ) (s : σ)
    (orgID serviceAccountID : Int) : Option GoError × σ :=
  match sess.Get s orgID serviceAccountID with
  | ((_, _, some err), s1) => (some err, s1)
  | ((false, _, none), s1) => (some ErrServiceAccountNotFound, s1)
  | ((true, user, none), s1) => execDeletions sess user.Id deletions s1

/-- Embedding of `DeleteServiceAccount`.  `WithTransactionalDbSession` is the
method of `sqlStore` that runs a callback on a session inside a transaction and
returns the error of the run. -/
def DeleteServiceAccount {σ : Type} (ErrServiceAccountNotFound : GoError)
    (deletions : List String)
    (WithTransactionalDbSession : (DBSession σ → σ → Option GoError × σ) → Option GoError)
    (orgID serviceaccountID : Int) : Option GoError :=
  WithTransactionalDbSession fun sess s =>
    deleteServiceAccountInTransaction ErrServiceAccountNotFound deletions sess s orgID
      serviceaccountID

/-- One `sess.Exec` call as observed from outside: statement, argument and the
error it returned. -/
structure ExecCall where
  sql : String
  arg : Int
  err : Option GoError
deriving DecidableEq, Repr

/-- The session `sess` with a journal of the `Exec` calls made on it: `Get`
leaves the journal alone, `Exec` appends the call and its outcome. -/
def DBSession.traced {σ : Type} (sess : DBSession σ) : DBSession (σ × List ExecCall) where
  Get := fun st orgID id =>
    ((sess.Get st.1 orgID id).1, ((sess.Get st.1 orgID id).2, st.2))
  Exec := fun st sql arg =>
    ((sess.Exec st.1 sql arg).1,
      ((sess.Exec st.1 sql arg).2, st.2 ++ [⟨sql, arg, (sess.Exec st.1 sql arg).1⟩]))

/-! ## `UpgradeServiceAccounts` -/

/-- The `sqlStore` operations used by `UpgradeServiceAccounts`, over a store
state `σ`.  `CreateServiceAccountForApikey` returns `(sa, err)` in Go and the
code dereferences `sa` whenever `err == nil`; the result is therefore modelled
as either an error or a created account. -/
structure UpgradeStore (σ : Type) where
  GetNonServiceAccountAPIKeys : σ → List ApiKey × σ
  CreateServiceAccountForApikey : σ → Int → String → RoleType → Except GoError User × σ
  UpdateApikeyServiceAccount : σ → Int → Int → Option GoError × σ

/-- The body of the goroutine of `UpgradeServiceAccounts`: the loop
`for _, key := range basicKeys`, run to completion.  The calls to `s.log` are
not modelled. -/
def upgradeLoop {σ : Type} (st : UpgradeStore σ) : List ApiKey → σ → σ
  | [], s => s
  | key :: rest, s =>
    match st.CreateServiceAccountForApikey s key.OrgId key.Name key.Role with
    | (.error _, s1) => upgradeLoop st rest s1
    | (.ok sa, s1) =>
      match st.UpdateApikeyServiceAccount s1 key.Id sa.Id with
      | (some _, s2) => upgradeLoop st rest s2
      | (none, s2) => upgradeLoop st rest s2

/-- Embedding of `UpgradeServiceAccounts` with the goroutine run sequentially
to completion before the function returns.  The call to `s.log` is not
modelled. -/
def UpgradeServiceAccounts {σ : Type} (st : UpgradeStore σ) (s : σ) : Option GoError × σ :=
  let r := st.GetNonServiceAccountAPIKeys s
  if r.1.length > 0 then (none, upgradeLoop st r.1 r.2) else (none, r.2)

/-- One store call of the upgrade loop as observed from outside, with its
arguments and its outcome. -/
inductive StoreCall where
  | create (orgId : Int) (name : String) (role : RoleType) (res : Except GoError User)
  | update (keyId : Int) (saId : Int) (res : Option GoError)

/-- The store `st` with a journal of the create and update calls made on it. -/
def UpgradeStore.traced {σ : Type} (st : UpgradeStore σ) : UpgradeStore (σ × List StoreCall) where
  GetNonServiceAccountAPIKeys := fun x =>
    ((st.GetNonServiceAccountAPIKeys x.1).1, ((st.GetNonServiceAccountAPIKeys x.1).2, x.2))
  CreateServiceAccountForApikey := fun x orgId name role =>
    ((st.CreateServiceAccountForApikey x.1 orgId name role).1,
      ((st.CreateServiceAccountForApikey x.1 orgId name role).2,
        x.2 ++ [.create orgId name role (st.CreateServiceAccountForApikey x.1 orgId name role).1]))
  UpdateApikeyServiceAccount := fun x keyId saId =>
    ((st.UpdateApikeyServiceAccount x.1 keyId saId).1,
      ((st.UpdateApikeyServiceAccount x.1 keyId saId).2,
        x.2 ++ [.update keyId saId (st.UpdateApikeyServiceAccount x.1 keyId saId).1]))

/-- The arguments of a create call; `none` for an update call. -/
def StoreCall.createArgs : StoreCall → Option (Int × String × RoleType)
  | .create orgId name role _ => some (orgId, name, role)
  | .update _ _ _ => none

/-- The calls one key may cause: a failed create alone, or a successful create
followed by one update with the key's id and the new account's id. -/
def KeySegment (key : ApiKey) (seg : List StoreCall) : Prop :=
  (∃ e, seg = [.create key.OrgId key.Name key.Role (.error e)]) ∨
  (∃ sa r, seg = [.create key.OrgId key.Name key.Role (.ok sa), .update key.Id sa.Id r])

/-! ## `ListTokens` -/

/-- The two tables read by the query of `ListTokens`. -/
structure Tables where
  api_key : List ApiKey
  user : List User

/-- The rows of `api_key INNER JOIN user ON user.id = api_key.service_account_id`:
a NULL `service_account_id` joins with no user. -/
def joinUser (db : Tables) : List (ApiKey × User) :=
  db.api_key.flatMap fun k =>
    (db.user.filter fun u => k.ServiceAccountId == some u.Id).map fun u => (k, u)

/-- The condition
`user.org_id=? AND user.id=? AND ( expires IS NULL or expires >= ?)`
with the three arguments `orgID`, `serviceAccount` and `now`. -/
def tokenWhere (orgID serviceAccount now : Int) (row : ApiKey × User) : Bool :=
  row.2.OrgId == orgID && row.2.Id == serviceAccount &&
    (row.1.Expires == none || (row.1.Expires.any fun e => decide (e ≥ now)))

/-- The relation `ORDER BY name ASC` sorts key rows by, for the column order
`le` of the database. -/
def nameLe (le : String → String → Bool) (a b : ApiKey × User) : Prop :=
  le a.1.Name b.1.Name = true

instance (le : String → String → Bool) : DecidableRel (nameLe le) :=
  fun a b => inferInstanceAs (Decidable (le a.1.Name b.1.Name = true))

/-- The query session built in `ListTokens` and run by `sess.Find(&result)`,
as filter, sort and take over the joined tables; the rows are decoded into
`api_key` records. -/
def findTokens (le : String → String → Bool) (db : Tables)
    (orgID serviceAccount now : Int) : List ApiKey :=
  ((((joinUser db).filter (tokenWhere orgID serviceAccount now)).insertionSort
    (nameLe le)).take 100).map Prod.fst

/-- Embedding of `ListTokens`.  `now` is `time.Now().Unix()`, `le` the
database's order on the `name` column.  A Go slice is an `Option (List _)`
whose `none` is the nil slice: `make([]*models.ApiKey, 0)` is `some []`, and
`Find` appends the rows it reads to the slice it is given.  `fault` is the
failure of the session, if there is one: `some (n, err)` is a run that breaks
off with `err` after `Find` has appended the first `n` rows of the answer
(`n = 0`: before any row). -/
def ListTokens (le : String → String → Bool) (db : Tables) (fault : Option (Nat × GoError))
    (now : Int) (orgID serviceAccount : Int) : Option (List ApiKey) × Option GoError :=
  let result : List ApiKey := []
  match fault with
  | none => (some (result ++ findTokens le db orgID serviceAccount now), none)
  | some (n, err) =>
    (some (result ++ (findTokens le db orgID serviceAccount now).take n), some err)

end database

/-! ## `SetupTestService` and the packages it wires -/

namespace featuremgmt

/-- Modelled from the spec: the Feature Toggle collaborator of package
`featuremgmt`, which lies outside the embedded files.  A toggle set is the list
of the names enabled in it. -/
structure FeatureToggles where
  enabled : List String
deriving DecidableEq, Repr

/-- Modelled from the spec: `featuremgmt.WithToggles(names...)`, the toggle set
in which exactly the given names are enabled. -/
def WithToggles (spec : List String) : FeatureToggles :=
  ⟨spec⟩

/-- Modelled from the spec: `IsEnabled(name string) -> bool` of the Feature
Toggle collaborator. -/
def FeatureToggles.IsEnabled (ft : FeatureToggles) (flag : String) : Bool :=
  decide (flag ∈ ft.enabled)

/-- Modelled from the spec: `IsEnvelopeEncryptionEnabled()`, the query of the
envelope-encryption toggle. -/
def FeatureToggles.IsEnvelopeEncryptionEnabled (ft : FeatureToggles) : Bool :=
  ft.IsEnabled "envelopeEncryption"

end featuremgmt

namespace setting

/-- The fields of `setting.Cfg` that `SetupTestService` sets; `R` is the type
of a loaded ini file. -/
structure Cfg (R : Type) where
  Raw : R
  IsFeatureToggleEnabled : String → Bool

/-- The struct `setting.OSSImpl`, the settings provider over a `Cfg`. -/
structure OSSImpl (R : Type) where
  Cfg : Cfg R

/-- Modelled from the spec: `(*OSSImpl).IsFeatureToggleEnabled`, declared
outside the embedded files, which asks the `Cfg` it wraps. -/
def OSSImpl.IsFeatureToggleEnabled {R : Type} (o : OSSImpl R) (name : String) : Bool :=
  o.Cfg.IsFeatureToggleEnabled name

end setting

namespace manager

/-- What a run of a test helper leaves behind: the values handed to
`assert.True`, in order, and the value returned, `none` when a
`require.NoError` stopped the test. -/
structure TestRun (S : Type) where
  asserts : List Bool
  result : Option S

/-- The settings object `SetupTestService` builds over a loaded ini file. -/
def testSettings {R : Type} (raw : R) : setting.OSSImpl R :=
  let features := featuremgmt.WithToggles ["envelopeEncryption"]
  let cfg : setting.Cfg R := { Raw := raw, IsFeatureToggleEnabled := features.IsEnabled }
  { Cfg := cfg }

/-- Embedding of `SetupTestService`.  Parameters: `SecretKey` is the package
variable `setting.SecretKey`; `iniLoad` is `ini.Load` on the text of its
argument; `encryption` is `ossencryption.ProvideService()`; `kmsProviders` is
`osskmsproviders.ProvideService`; `ProvideSecretsService` is the constructor
of the secrets service (its usage-statistics argument is dropped). -/
def SetupTestService {R E K St S : Type} (SecretKey : String)
    (iniLoad : String → Except GoError R) (encryption : E)
    (kmsProviders : E → setting.OSSImpl R → K)
    (ProvideSecretsService : St → K → E → setting.OSSImpl R → Except GoError S)
    (store : St) : TestRun S :=
  let defaultKey := if SecretKey.length > 0 then SecretKey else "SdlklWklckeLS"
  match iniLoad ("\n\t\t[security]\n\t\tsecret_key = " ++ defaultKey) with
  | .error _ => { asserts := [], result := none }
  | .ok raw =>
    let features := featuremgmt.WithToggles ["envelopeEncryption"]
    let cfg : setting.Cfg R := { Raw := raw, IsFeatureToggleEnabled := features.IsEnabled }
    let settings : setting.OSSImpl R := { Cfg := cfg }
    let asserts :=
      [settings.IsFeatureToggleEnabled "envelopeEncryption",
        features.IsEnvelopeEncryptionEnabled]
    match ProvideSecretsService store (kmsProviders encryption settings) encryption settings with
    | .error _ => { asserts := asserts, result := none }
    | .ok secretsService => { asserts := asserts, result := some secretsService }

end manager

/-! ## The secrets service

The code of the secrets service (`ProvideSecretsService`, `Encrypt`,
`Decrypt`, the key providers and the cipher) lies outside the embedded files.
The definitions of this section follow the specification of the service,
sections 3, 4 and 6. -/

namespace secrets

/-- A byte. -/
abbrev Byte := Fin 256

/-- A byte sequence. -/
abbrev Bytes := List Byte

/-- The logical namespace a data key is bound to. -/
abbrev Scope := String

/-- The bytes of an ASCII text. -/
def ascii (s : String) : Bytes :=
  s.toList.map fun c => Fin.ofNat c.toNat

/-- Modelled from the spec: the Key Provider Identifier of section 3, a short
string; the envelope header stores its length in one byte, so its length is
below 256. -/
abbrev ProviderId := { b : Bytes // b.length < 256 }

/-- Modelled from the spec: the error taxonomy of section 7. -/
inductive SecretsError where
  | InvalidKeyError
  | IntegrityError
  | UnknownProviderError
  | NetworkError
  | AuthorizationError
deriving DecidableEq, Repr

/-- Modelled from the spec: the `DecryptionError` of section 4.4, as which
every failure of `Decrypt` surfaces.  It carries the provider id read from the
header and the error of the taxonomy that caused it; a header that fails the
strict parse has no such cause. -/
structure DecryptionError where
  providerId : Bytes
  cause : Option SecretsError
deriving DecidableEq, Repr

/-- Modelled from the spec: the Cipher Primitive of section 4.1,
`Encrypt(rawKey, plaintext) -> ciphertext` and
`Decrypt(rawKey, ciphertext) -> plaintext`, with its fixed key length. -/
structure Cipher where
  keyLen : Nat
  Encrypt : Bytes → Bytes → Except SecretsError Bytes
  Decrypt : Bytes → Bytes → Except SecretsError Bytes

/-- Modelled from the spec: the contract of the Cipher Primitive that the
engine relies on: under a key of the fixed length, encryption yields a
ciphertext and decryption of it under the same key yields the plaintext. -/
def Cipher.Lawful (c : Cipher) : Prop :=
  ∀ key plaintext, key.length = c.keyLen →
    ∃ ct, c.Encrypt key plaintext = .ok ct ∧ c.Decrypt key ct = .ok plaintext

/-- Modelled from the spec: the two provider variants of section 4.2.  A Local
provider derives the raw key from a configured secret and the scope with a
derivation function; an External provider asks a key service, which may fail. -/
inductive Provider where
  | Local (secret : Bytes) (derive : Bytes → Scope → Bytes)
  | External (fetch : Scope → Except SecretsError Bytes)

/-- Modelled from the spec: `DeriveOrFetchKey(scope)` of section 4.2 (the raw
key; the envelope layout of section 6 has no field for a key reference). -/
def Provider.DeriveOrFetchKey : Provider → Scope → Except SecretsError Bytes
  | .Local secret derive, scope => .ok (derive secret scope)
  | .External fetch, scope => fetch scope

/-- Modelled from the spec: the KMS Provider Registry of section 4.2, a mapping
from provider ids to providers. -/
abbrev Registry := List (ProviderId × Provider)

/-- Modelled from the spec: the registry resolves a provider id at call time;
an unknown id fails with `UnknownProviderError`. -/
def Registry.resolve (reg : Registry) (providerId : Bytes) : Except SecretsError Provider :=
  match reg.find? fun e => e.1.val == providerId with
  | some e => .ok e.2
  | none => .error .UnknownProviderError

/-- Modelled from the spec: a provider call through the registry. -/
def Registry.DeriveOrFetchKey (reg : Registry) (providerId : Bytes) (scope : Scope) :
    Except SecretsError Bytes :=
  match reg.resolve providerId with
  | .ok p => p.DeriveOrFetchKey scope
  | .error e => .error e

/-- Modelled from the spec: the DEK Cache Entry of section 3. -/
structure CacheEntry where
  providerId : Bytes
  scope : Scope
  rawKey : Bytes
  created : Nat
deriving DecidableEq, Repr

/-- Whether a cache entry is the one of `(providerId, scope)`. -/
def CacheEntry.isFor (e : CacheEntry) (providerId : Bytes) (scope : Scope) : Bool :=
  e.providerId == providerId && e.scope == scope

/-- Modelled from the spec: the Data Key Cache of section 4.3. -/
abbrev DataKeyCache := List CacheEntry

/-- Modelled from the spec: a cache hit is an entry of `(providerId, scope)`
that is not older than the lifetime `ttl` at time `now`. -/
def DataKeyCache.lookup (c : DataKeyCache) (ttl now : Nat) (providerId : Bytes)
    (scope : Scope) : Option Bytes :=
  match c.find? fun e => e.isFor providerId scope with
  | some e => if now - e.created ≤ ttl then some e.rawKey else none
  | none => none

/-- Modelled from the spec: `Invalidate(providerId, scope)` removes the cached
entry. -/
def DataKeyCache.Invalidate (c : DataKeyCache) (providerId : Bytes) (scope : Scope) :
    DataKeyCache :=
  c.filter fun e => !e.isFor providerId scope

/-- Modelled from the spec: `GetOrCreate(providerId, scope)` of section 4.3.
A hit returns the cached key with no provider call; on a miss or an expired
entry the registry is called, the entry is evicted and the new key stored. -/
def DataKeyCache.GetOrCreate (c : DataKeyCache) (reg : Registry) (ttl now : Nat)
    (providerId : Bytes) (scope : Scope) : Except SecretsError Bytes × DataKeyCache :=
  match c.lookup ttl now providerId scope with
  | some key => (.ok key, c)
  | none =>
    match reg.DeriveOrFetchKey providerId scope with
    | .ok key => (.ok key, ⟨providerId, scope, key, now⟩ :: c.Invalidate providerId scope)
    | .error e => (.error e, c.Invalidate providerId scope)

/-- Modelled from the spec: the legacy single-key scheme that precedes the
envelope; its byte layout is not specified, so it is a pair of functions. -/
structure LegacyScheme where
  Encrypt : Bytes → Except SecretsError Bytes
  Decrypt : Bytes → Except SecretsError Bytes

/-- Modelled from the spec: the secrets service of sections 4.4 and 4.5 with
the configuration it is constructed from (feature-toggle query, active
provider id, cache lifetime), its collaborators and its data key cache. -/
structure SecretsService where
  IsFeatureToggleEnabled : String → Bool
  activeProvider : ProviderId
  ttl : Nat
  providers : Registry
  cipher : Cipher
  legacy : LegacyScheme
  cache : DataKeyCache

/-- Modelled from the spec: the envelope header of section 6, the format
version `0x01`, the provider-id length in one byte and the provider id. -/
def header (providerId : ProviderId) : Bytes :=
  (1 : Byte) :: (⟨providerId.val.length, providerId.property⟩ : Byte) :: providerId.val

/-- What a parse of an envelope header finds. -/
inductive Parsed where
  | legacy
  | malformed
  | envelope (providerId : Bytes) (ciphertext : Bytes)
deriving DecidableEq, Repr

/-- Modelled from the spec: the strict header parse of section 4.4.  An input
that fails the version-byte check is legacy ciphertext; an input that passes it
but is cut short is malformed. -/
def parseHeader : Bytes → Parsed
  | [] => .legacy
  | v :: rest =>
    if v ≠ 1 then .legacy
    else
      match rest with
      | [] => .malformed
      | n :: body =>
        if body.length < n.val then .malformed
        else .envelope (body.take n.val) (body.drop n.val)

/-- Modelled from the spec: `Encrypt(plaintext, scope)` of the Envelope
Encryption Engine, steps 1 to 4 of section 4.4, at time `now`. -/
def SecretsService.envelopeEncrypt (svc : SecretsService) (now : Nat) (plaintext : Bytes)
    (scope : Scope) : Except SecretsError Bytes × SecretsService :=
  let providerId := svc.activeProvider
  match svc.cache.GetOrCreate svc.providers svc.ttl now providerId.val scope with
  | (.error e, cache) => (.error e, { svc with cache := cache })
  | (.ok rawKey, cache) =>
    match svc.cipher.Encrypt rawKey plaintext with
    | .error e => (.error e, { svc with cache := cache })
    | .ok ciphertext => (.ok (header providerId ++ ciphertext), { svc with cache := cache })

/-- Modelled from the spec: `Encrypt(plaintext, scope)` of the Secrets Service
Facade, section 4.5: one feature-toggle query chooses the envelope or the
legacy path. -/
def SecretsService.Encrypt (svc : SecretsService) (now : Nat) (plaintext : Bytes)
    (scope : Scope) : Except SecretsError Bytes × SecretsService :=
  if svc.IsFeatureToggleEnabled "envelopeEncryption" then
    svc.envelopeEncrypt now plaintext scope
  else (svc.legacy.Encrypt plaintext, svc)

/-- Modelled from the spec: `Decrypt(envelope)` of sections 4.4 and 4.5, at
time `now`.  The raw key is fetched "with the same scope used at encryption
time"; the envelope layout does not record the scope, so it is an argument.
An input without the version byte goes to the legacy path.  A malformed header
and every failure of steps 2 and 3 surface as a `DecryptionError` with the
provider id and the cause; no other key is tried. -/
def SecretsService.Decrypt (svc : SecretsService) (now : Nat) (envelope : Bytes)
    (scope : Scope) : Except DecryptionError Bytes × SecretsService :=
  match parseHeader envelope with
  | .legacy =>
    match svc.legacy.Decrypt envelope with
    | .error e => (.error ⟨[], some e⟩, svc)
    | .ok plaintext => (.ok plaintext, svc)
  | .malformed => (.error ⟨[], none⟩, svc)
  | .envelope providerId ciphertext =>
    match svc.cache.GetOrCreate svc.providers svc.ttl now providerId scope with
    | (.error e, cache) => (.error ⟨providerId, some e⟩, { svc with cache := cache })
    | (.ok rawKey, cache) =>
      match svc.cipher.Decrypt rawKey ciphertext with
      | .error e => (.error ⟨providerId, some e⟩, { svc with cache := cache })
      | .ok plaintext => (.ok plaintext, { svc with cache := cache })

/-- Modelled from the spec: the secrets service as `SetupTestService` wires
it: the feature-toggle query of `featuremgmt.WithToggles("envelopeEncryption")`
and a registry holding the local secret-key provider under the active provider
id, over the secret key of the settings. -/
def testService (cipher : Cipher) (legacy : LegacyScheme) (derive : Bytes → Scope → Bytes)
    (providerId : ProviderId) (ttl : Nat) (secretKey : Bytes) (cache : DataKeyCache) :
    SecretsService where
  IsFeatureToggleEnabled := (featuremgmt.WithToggles ["envelopeEncryption"]).IsEnabled
  activeProvider := providerId
  ttl := ttl
  providers := [(providerId, .Local secretKey derive)]
  cipher := cipher
  legacy := legacy
  cache := cache

/-- The cached keys are the keys of the registry: every entry holds the key its
provider yields for the entry's scope. -/
def CacheConsistent (reg : Registry) (c : DataKeyCache) : Prop :=
  ∀ e ∈ c, reg.DeriveOrFetchKey e.providerId e.scope = .ok e.rawKey

/-- A cipher for examples, with keys of one byte: every byte is shifted by the
key byte and a checksum of the plaintext is put in front. -/
def shiftCipher : Cipher where
  keyLen := 1
  Encrypt := fun key plaintext =>
    match key with
    | [k] => .ok (plaintext.sum :: plaintext.map (· + k))
    | _ => .error .InvalidKeyError
  Decrypt := fun key ct =>
    match key, ct with
    | [k], tag :: body =>
      if (body.map (· - k)).sum = tag then .ok (body.map (· - k)) else .error .IntegrityError
    | [_], [] => .error .IntegrityError
    | _, _ => .error .InvalidKeyError

/-- A key derivation for examples: the one-byte sum of the secret and of the
scope's length. -/
def sumDerive (secret : Bytes) (scope : Scope) : Bytes :=
  [secret.sum + Fin.ofNat scope.length]

/-- A legacy scheme for examples: the identity. -/
def plainLegacy : LegacyScheme where
  Encrypt := fun b => .ok b
  Decrypt := fun b => .ok b

end secrets

/-! ## Example collaborators

Small concrete stores, sessions and tables on which the embedded functions are
evaluated. -/

namespace database

open models serviceaccounts

/-- An org-users query oracle: user 7 is one service account, the query for
user 8 yields two rows, any other user none, and a query that does not ask for
service accounts fails. -/
def exampleGetOrgUsers : GetOrgUsersQuery → List String × Option GoError := fun q =>
  if q.IsServiceAccount = false then ([], some ⟨"not a service account query"⟩)
  else if q.UserID = 7 then (["sa-7"], none)
  else if q.UserID = 8 then (["sa-8", "sa-8"], none)
  else ([], none)

/-- A session over a counter of executed statements: the lookup finds user 42
in org 1 only, fails for org 0, and the statement `bad` fails. -/
def exampleSession : DBSession Nat where
  Get := fun s orgID id =>
    if orgID = 0 then ((false, ⟨0, 0, "", "", false⟩, some ⟨"connection lost"⟩), s)
    else if orgID = 1 ∧ id = 42 then ((true, ⟨42, 1, "sa-login", "sa", true⟩, none), s)
    else ((false, ⟨0, 0, "", "", false⟩, none), s)
  Exec := fun s sql _ => if sql = "bad" then (some ⟨"syntax error"⟩, s) else (none, s + 1)

/-- A store over a counter of created accounts: three keys to upgrade; a create
for the name `broken` fails, an update of key 3 fails. -/
def exampleStore : UpgradeStore Nat where
  GetNonServiceAccountAPIKeys := fun s =>
    ([⟨1, 10, "ci", "k1", "Viewer", none, none⟩,
      ⟨2, 10, "broken", "k2", "Editor", none, none⟩,
      ⟨3, 11, "ops", "k3", "Admin", none, none⟩], s)
  CreateServiceAccountForApikey := fun s orgId name _ =>
    if name = "broken" then (.error ⟨"create failed"⟩, s)
    else (.ok ⟨100 + s, orgId, "sa-" ++ name, name, true⟩, s + 1)
  UpdateApikeyServiceAccount := fun s keyId _ =>
    if keyId = 3 then (some ⟨"update failed"⟩, s) else (none, s)

/-- The order of strings by code points, one column order a database may use. -/
def codepointLe (a b : String) : Bool :=
  decide (a.toList.map Char.toNat ≤ b.toList.map Char.toNat)

/-- Two service accounts and five keys: two live keys of account 42, an expired
one, a key of account 43 and a key of no account. -/
def exampleTables : Tables where
  api_key :=
    [⟨1, 1, "zeta", "k1", "Viewer", none, some 42⟩,
      ⟨2, 1, "alpha", "k2", "Viewer", some 100, some 42⟩,
      ⟨3, 1, "old", "k3", "Viewer", some 5, some 42⟩,
      ⟨4, 1, "other", "k4", "Viewer", none, some 43⟩,
      ⟨5, 1, "plain", "k5", "Viewer", none, none⟩]
  user := [⟨42, 1, "sa", "sa", true⟩, ⟨43, 1, "sb", "sb", true⟩]

end database

/-! ## Properties of the service-account store -/

namespace database

open models serviceaccounts

/-- C3: `RetrieveServiceAccount` issues the org-users query with
`UserID = serviceAccountID`, `OrgId = orgID`, `IsServiceAccount = true`.  If the
query fails, its error is returned unchanged with a nil account.  If it
succeeds, a one-element result is returned with a nil error, every other length
gives nil with `ErrServiceAccountNotFound`, and the error is nil exactly when
the result has length 1. -/
theorem RetrieveServiceAccount_spec {D : Type} (ErrServiceAccountNotFound : GoError)
    (GetOrgUsers : GetOrgUsersQuery → List D × Option GoError)
    (orgID serviceAccountID : Int) :
    (∀ result err,
      GetOrgUsers { UserID := serviceAccountID, OrgId := orgID, IsServiceAccount := true }
        = (result, some err) →
      RetrieveServiceAccount ErrServiceAccountNotFound GetOrgUsers orgID serviceAccountID
        = (none, some err)) ∧
    (∀ result,
      GetOrgUsers { UserID := serviceAccountID, OrgId := orgID, IsServiceAccount := true }
        = (result, none) →
      (∀ x, result = [x] →
        RetrieveServiceAccount ErrServiceAccountNotFound GetOrgUsers orgID serviceAccountID
          = (some x, none)) ∧
      (result.length ≠ 1 →
        RetrieveServiceAccount ErrServiceAccountNotFound GetOrgUsers orgID serviceAccountID
          = (none, some ErrServiceAccountNotFound)) ∧
      ((RetrieveServiceAccount ErrServiceAccountNotFound GetOrgUsers orgID
          serviceAccountID).2 = none ↔ result.length = 1)) := by
  refine ⟨?_, ?_⟩
  · intro result err h
    simp [RetrieveServiceAccount, h]
  · intro result h
    refine ⟨?_, ?_, ?_⟩
    · rintro x rfl
      simp [RetrieveServiceAccount, h]
    · intro hl
      simp [RetrieveServiceAccount, h, hl]
    · by_cases hl : result.length = 1
      · simp [RetrieveServiceAccount, h, hl]
      · simp [RetrieveServiceAccount, h, hl]

/-- Runs of `RetrieveServiceAccount` on the example oracle: user 7 is found, the two rows of user 8 and the
empty result of user 9 give `ErrServiceAccountNotFound`. -/
theorem RetrieveServiceAccount_spec_witness :
    RetrieveServiceAccount ⟨"not found"⟩ exampleGetOrgUsers 1 7 = (some "sa-7", none) ∧
    RetrieveServiceAccount ⟨"not found"⟩ exampleGetOrgUsers 1 8
      = (none, some ⟨"not found"⟩) ∧
    RetrieveServiceAccount ⟨"not found"⟩ exampleGetOrgUsers 1 9
      = (none, some ⟨"not found"⟩) :=
  ⟨((RetrieveServiceAccount_spec ⟨"not found"⟩ exampleGetOrgUsers 1 7).2 ["sa-7"]
      (by decide)).1 "sa-7" rfl,
    ((RetrieveServiceAccount_spec ⟨"not found"⟩ exampleGetOrgUsers 1 8).2 ["sa-8", "sa-8"]
      (by decide)).2.1 (by decide),
    by decide⟩

/-- C4: the `CreateUserCommand` that `CreateServiceAccount` hands to the store
has `IsServiceAccount = true`, the form's `OrgID`, a `Login` that starts with
`Service-Account-`, a `Name` that starts with the form's `Name` followed by
`-Service-Account-`, and every other field at its zero value (no role, no admin
flag).  When the store succeeds the user it returned is returned with a nil
error; when it fails the result is a nil user and an error whose text is
`failed to create user: ` followed by the text of the store's error. -/
theorem CreateServiceAccount_spec (uuid1 uuid2 : String) (sa : CreateServiceaccountForm) :
    ∃ cmd : CreateUserCommand,
      cmd.IsServiceAccount = true ∧ cmd.OrgId = sa.OrgID ∧
      cmd.Login = "Service-Account-" ++ uuid1 ∧
      "Service-Account-".toList <+: cmd.Login.toList ∧
      cmd.Name = sa.Name ++ "-Service-Account-" ++ uuid2 ∧
      (sa.Name ++ "-Service-Account-").toList <+: cmd.Name.toList ∧
      cmd = { Login := cmd.Login, Name := cmd.Name, OrgId := cmd.OrgId,
              IsServiceAccount := cmd.IsServiceAccount } ∧
      cmd.DefaultOrgRole = "" ∧ cmd.IsAdmin = false ∧
      ∀ (U : Type) (CreateUser : CreateUserCommand → Option U × Option GoError),
        (∀ newuser, CreateUser cmd = (newuser, none) →
          CreateServiceAccount CreateUser uuid1 uuid2 sa = (newuser, none)) ∧
        (∀ newuser err, CreateUser cmd = (newuser, some err) →
          ∃ e, CreateServiceAccount CreateUser uuid1 uuid2 sa = (none, some e) ∧
            e.msg = "failed to create user: " ++ err.msg) := by
  refine ⟨{ Login := "Service-Account-" ++ uuid1
            Name := sa.Name ++ "-Service-Account-" ++ uuid2
            OrgId := sa.OrgID
            IsServiceAccount := true }, rfl, rfl, rfl, ?_, rfl, ?_, rfl, rfl, rfl, ?_⟩
  · simp [String.toList]
  · simp [String.toList]
  · intro U CreateUser
    refine ⟨?_, ?_⟩
    · intro newuser h
      simp [CreateServiceAccount, h]
    · intro newuser err h
      exact ⟨fmt.Errorf "failed to create user: " err, by simp [CreateServiceAccount, h], rfl⟩

/-- Runs of `CreateServiceAccount` on a store that returns the command it was
given, and on a store that
fails. -/
theorem CreateServiceAccount_spec_witness :
    (∃ cmd : CreateUserCommand, cmd.IsServiceAccount = true ∧ cmd.OrgId = 3) ∧
    CreateServiceAccount (fun cmd => (some cmd, none)) "u1" "u2" ⟨3, "ci"⟩
      = (some { Login := "Service-Account-u1", Name := "ci-Service-Account-u2", OrgId := 3,
                IsServiceAccount := true }, none) ∧
    CreateServiceAccount (fun _ => ((none : Option Unit), some ⟨"db down"⟩)) "u1" "u2" ⟨3, "ci"⟩
      = (none, some ⟨"failed to create user: db down"⟩) :=
  ⟨(CreateServiceAccount_spec "u1" "u2" ⟨3, "ci"⟩).imp fun _ h => ⟨h.1, h.2.1⟩,
    by decide, by decide⟩

/-- The journal of one run of the deletion loop: the run on the journalled
session agrees with the run on the session itself, and the journal is a run of
the statements in order, all but the last of them successful. -/
theorem execDeletions_traced {σ : Type} (sess : DBSession σ) (uid : Int) :
    ∀ (dels : List String) (s : σ) (log0 : List ExecCall),
      ∃ L : List ExecCall,
        (execDeletions sess.traced uid dels (s, log0)).2.2 = log0 ++ L ∧
        (execDeletions sess.traced uid dels (s, log0)).1 = (execDeletions sess uid dels s).1 ∧
        (execDeletions sess.traced uid dels (s, log0)).2.1 = (execDeletions sess uid dels s).2 ∧
        L.map (fun c => (c.sql, c.arg)) = (dels.take L.length).map (fun q => (q, uid)) ∧
        (∀ c ∈ L.dropLast, c.err = none) ∧
        (∀ e, (execDeletions sess uid dels s).1 = some e →
          ∃ c, L.getLast? = some c ∧ c.err = some e) ∧
        ((execDeletions sess uid dels s).1 = none ↔
          L.length = dels.length ∧ ∀ c ∈ L, c.err = none) := by
  intro dels
  induction dels with
  | nil =>
    intro s log0
    exact ⟨[], by simp [execDeletions]⟩
  | cons sql rest ih =>
    intro s log0
    rcases h : sess.Exec s sql uid with ⟨r, s1⟩
    cases r with
    | some err =>
      refine ⟨[⟨sql, uid, some err⟩], ?_⟩
      simp [execDeletions, DBSession.traced, h]
    | none =>
      obtain ⟨L, h1, h2, h3, h4, h5, h6, h7⟩ := ih s1 (log0 ++ [⟨sql, uid, none⟩])
      refine ⟨⟨sql, uid, none⟩ :: L, ?_, ?_, ?_, ?_, ?_, ?_, ?_⟩
      · simp [execDeletions, DBSession.traced, h] at h1 ⊢
        simpa using h1
      · simpa [execDeletions, DBSession.traced, h] using h2
      · simpa [execDeletions, DBSession.traced, h] using h3
      · simpa using h4
      · intro c hc
        cases L with
        | nil => simp at hc
        | cons a L' =>
          rw [List.dropLast_cons₂] at hc
          rcases List.mem_cons.1 hc with rfl | hc
          · rfl
          · exact h5 c hc
      · intro e he
        have he' : (execDeletions sess uid rest s1).1 = some e := by
          simpa [execDeletions, h] using he
        obtain ⟨c, hc, hce⟩ := h6 e he'
        refine ⟨c, ?_, hce⟩
        cases L with
        | nil => simp at hc
        | cons a L' => simpa [List.getLast?_cons_cons] using hc
      · have : (execDeletions sess uid (sql :: rest) s).1
            = (execDeletions sess uid rest s1).1 := by
          simp [execDeletions, h]
        rw [this, h7]
        simp

/-- C6: `deleteServiceAccountInTransaction`, run on a session and on the same
session with a journal of its `Exec` calls.  If the lookup fails its error is
returned and the journal is empty; if it succeeds without a row the result is
`ErrServiceAccountNotFound` and the journal is empty.  If a row is found, the
journal lists the deletion statements in list order, each with the found user's
`Id`; every call but the last succeeded; a returned error is the error of the
last call; and nil is returned exactly when all statements were executed and
all succeeded. -/
theorem deleteServiceAccountInTransaction_spec {σ : Type} (ErrServiceAccountNotFound : GoError)
    (deletions : List String) (sess : DBSession σ) (s : σ) (orgID serviceAccountID : Int) :
    (∀ has user err s1, sess.Get s orgID serviceAccountID = ((has, user, some err), s1) →
      deleteServiceAccountInTransaction ErrServiceAccountNotFound deletions sess s orgID
        serviceAccountID = (some err, s1) ∧
      deleteServiceAccountInTransaction ErrServiceAccountNotFound deletions sess.traced (s, [])
        orgID serviceAccountID = (some err, (s1, []))) ∧
    (∀ user s1, sess.Get s orgID serviceAccountID = ((false, user, none), s1) →
      deleteServiceAccountInTransaction ErrServiceAccountNotFound deletions sess s orgID
        serviceAccountID = (some ErrServiceAccountNotFound, s1) ∧
      deleteServiceAccountInTransaction ErrServiceAccountNotFound deletions sess.traced (s, [])
        orgID serviceAccountID = (some ErrServiceAccountNotFound, (s1, []))) ∧
    (∀ user s1, sess.Get s orgID serviceAccountID = ((true, user, none), s1) →
      ∃ (ret : Option GoError) (s2 : σ) (log : List ExecCall),
        deleteServiceAccountInTransaction ErrServiceAccountNotFound deletions sess s orgID
          serviceAccountID = (ret, s2) ∧
        deleteServiceAccountInTransaction ErrServiceAccountNotFound deletions sess.traced
          (s, []) orgID serviceAccountID = (ret, (s2, log)) ∧
        log.map (fun c => (c.sql, c.arg))
          = (deletions.take log.length).map (fun q => (q, user.Id)) ∧
        (∀ c ∈ log.dropLast, c.err = none) ∧
        (∀ e, ret = some e → ∃ c, log.getLast? = some c ∧ c.err = some e) ∧
        (ret = none ↔ log.length = deletions.length ∧ ∀ c ∈ log, c.err = none)) := by
  refine ⟨?_, ?_, ?_⟩
  · intro has user err s1 h
    cases has <;> simp [deleteServiceAccountInTransaction, DBSession.traced, h]
  · intro user s1 h
    simp [deleteServiceAccountInTransaction, DBSession.traced, h]
  · intro user s1 h
    obtain ⟨L, h1, h2, h3, h4, h5, h6, h7⟩ := execDeletions_traced sess user.Id deletions s1 []
    refine ⟨(execDeletions sess user.Id deletions s1).1,
      (execDeletions sess user.Id deletions s1).2, L, ?_, ?_, h4, h5, h6, h7⟩
    · simp [deleteServiceAccountInTransaction, h]
    · have : deleteServiceAccountInTransaction ErrServiceAccountNotFound deletions sess.traced
          (s, []) orgID serviceAccountID
            = execDeletions sess.traced user.Id deletions (s1, []) := by
        simp [deleteServiceAccountInTransaction, DBSession.traced, h]
      rw [this]
      simp only [List.nil_append] at h1
      rw [← h1, ← h2, ← h3]

/-- Runs of the deletion on the example session: a missing account and a failed lookup execute
nothing; for the found user 42 the second statement fails and the third is
never executed; with three good statements all run and nil is returned. -/
theorem deleteServiceAccountInTransaction_spec_witness :
    deleteServiceAccountInTransaction ⟨"not found"⟩ ["a", "bad", "c"] exampleSession.traced
      (0, []) 1 43 = (some ⟨"not found"⟩, (0, [])) ∧
    deleteServiceAccountInTransaction ⟨"not found"⟩ ["a", "bad", "c"] exampleSession.traced
      (0, []) 0 42 = (some ⟨"connection lost"⟩, (0, [])) ∧
    deleteServiceAccountInTransaction ⟨"not found"⟩ ["a", "bad", "c"] exampleSession.traced
      (0, []) 1 42
        = (some ⟨"syntax error"⟩,
            (1, [⟨"a", 42, none⟩, ⟨"bad", 42, some ⟨"syntax error"⟩⟩])) ∧
    deleteServiceAccountInTransaction ⟨"not found"⟩ ["a", "b", "c"] exampleSession.traced
      (0, []) 1 42 = (none, (3, [⟨"a", 42, none⟩, ⟨"b", 42, none⟩, ⟨"c", 42, none⟩])) :=
  ⟨((deleteServiceAccountInTransaction_spec ⟨"not found"⟩ ["a", "bad", "c"] exampleSession 0
      1 43).2.1 ⟨0, 0, "", "", false⟩ 0 (by decide)).2,
    ((deleteServiceAccountInTransaction_spec ⟨"not found"⟩ ["a", "bad", "c"] exampleSession 0
      0 42).1 false ⟨0, 0, "", "", false⟩ ⟨"connection lost"⟩ 0 (by decide)).2,
    by decide, by decide⟩

/-- The journal of the upgrade loop is made of one segment of calls for each
key, in the order of the keys, and the journalled run agrees with the run on
the store itself. -/
theorem upgradeLoop_traced {σ : Type} (st : UpgradeStore σ) :
    ∀ (keys : List ApiKey) (s : σ) (log0 : List StoreCall),
      ∃ segs : List (List StoreCall),
        (upgradeLoop st.traced keys (s, log0)).2 = log0 ++ segs.flatten ∧
        (upgradeLoop st.traced keys (s, log0)).1 = upgradeLoop st keys s ∧
        List.Forall₂ KeySegment keys segs := by
  intro keys
  induction keys with
  | nil =>
    intro s log0
    exact ⟨[], by simp [upgradeLoop]⟩
  | cons key rest ih =>
    intro s log0
    rcases h : st.CreateServiceAccountForApikey s key.OrgId key.Name key.Role with ⟨r, s1⟩
    cases r with
    | error e =>
      obtain ⟨segs, h1, h2, h3⟩ :=
        ih s1 (log0 ++ [.create key.OrgId key.Name key.Role (.error e)])
      refine ⟨[.create key.OrgId key.Name key.Role (.error e)] :: segs, ?_, ?_,
        List.Forall₂.cons (Or.inl ⟨e, rfl⟩) h3⟩
      · simpa [upgradeLoop, UpgradeStore.traced, h] using h1
      · simpa [upgradeLoop, UpgradeStore.traced, h] using h2
    | ok sa =>
      rcases h' : st.UpdateApikeyServiceAccount s1 key.Id sa.Id with ⟨r2, s2⟩
      obtain ⟨segs, h1, h2, h3⟩ :=
        ih s2 (log0 ++ [.create key.OrgId key.Name key.Role (.ok sa)] ++
          [.update key.Id sa.Id r2])
      refine ⟨[.create key.OrgId key.Name key.Role (.ok sa), .update key.Id sa.Id r2] :: segs,
        ?_, ?_, List.Forall₂.cons (Or.inr ⟨sa, r2, rfl⟩) h3⟩
      · cases r2 <;> simpa [upgradeLoop, UpgradeStore.traced, h, h'] using h1
      · cases r2 <;> simpa [upgradeLoop, UpgradeStore.traced, h, h'] using h2

/-- The create calls of a journal made of key segments are the create calls of
the keys, one for each key and in their order. -/
theorem createArgs_of_segments :
    ∀ (keys : List ApiKey) (segs : List (List StoreCall)), List.Forall₂ KeySegment keys segs →
      segs.flatten.filterMap StoreCall.createArgs
        = keys.map (fun k => (k.OrgId, k.Name, k.Role)) := by
  intro keys segs h
  induction h with
  | nil => rfl
  | cons hseg _ ih =>
    rcases hseg with ⟨e, rfl⟩ | ⟨sa, r, rfl⟩
    · simpa [StoreCall.createArgs] using ih
    · simpa [StoreCall.createArgs] using ih

/-- C7: the upgrade loop of `UpgradeServiceAccounts`, run to completion on a
store with a journal of its calls.  The journal is the concatenation of one
segment for each non-service-account key, in list order; the segment of a key
is either one failed `CreateServiceAccountForApikey` call with the key's
`OrgId`, `Name` and `Role`, or one successful such call followed by one
`UpdateApikeyServiceAccount` call with the key's `Id` and the `Id` of the
account just created, whatever that update returns.  So every key gets exactly
one create attempt, in order, and no failure stops the later keys.  The function
returns nil and leaves the store as the run without a journal does. -/
theorem UpgradeServiceAccounts_spec {σ : Type} (st : UpgradeStore σ) (s : σ) :
    ∃ segs : List (List StoreCall),
      (UpgradeServiceAccounts st.traced (s, [])).2.2 = segs.flatten ∧
      List.Forall₂ KeySegment (st.GetNonServiceAccountAPIKeys s).1 segs ∧
      segs.flatten.filterMap StoreCall.createArgs
        = (st.GetNonServiceAccountAPIKeys s).1.map (fun k => (k.OrgId, k.Name, k.Role)) ∧
      (UpgradeServiceAccounts st.traced (s, [])).1 = none ∧
      (UpgradeServiceAccounts st.traced (s, [])).2.1 = (UpgradeServiceAccounts st s).2 := by
  obtain ⟨segs, h1, h2, h3⟩ := upgradeLoop_traced st (st.GetNonServiceAccountAPIKeys s).1
    (st.GetNonServiceAccountAPIKeys s).2 []
  refine ⟨segs, ?_, h3, createArgs_of_segments _ _ h3, ?_, ?_⟩
  · by_cases hl : (st.GetNonServiceAccountAPIKeys s).1.length > 0
    · simpa [UpgradeServiceAccounts, UpgradeStore.traced, hl] using h1
    · have hnil : (st.GetNonServiceAccountAPIKeys s).1 = [] := by
        simpa using hl
      rw [hnil] at h3
      cases h3
      simp [UpgradeServiceAccounts, UpgradeStore.traced, hnil]
  · simp only [UpgradeServiceAccounts]
    split <;> rfl
  · by_cases hl : (st.GetNonServiceAccountAPIKeys s).1.length > 0
    · simpa [UpgradeServiceAccounts, UpgradeStore.traced, hl] using h2
    · have hnil : (st.GetNonServiceAccountAPIKeys s).1 = [] := by
        simpa using hl
      simp [UpgradeServiceAccounts, UpgradeStore.traced, hnil]

/-- A run of the upgrade on the example store: the create for the second key fails and the update
for the third key fails, and all three keys are still processed in order. -/
theorem UpgradeServiceAccounts_spec_witness :
    (∃ segs : List (List StoreCall),
      (UpgradeServiceAccounts exampleStore.traced (0, [])).2.2 = segs.flatten ∧
      List.Forall₂ KeySegment (exampleStore.GetNonServiceAccountAPIKeys 0).1 segs) ∧
    (UpgradeServiceAccounts exampleStore.traced (0, [])).2.2
      = [.create 10 "ci" "Viewer" (.ok ⟨100, 10, "sa-ci", "ci", true⟩),
          .update 1 100 none,
          .create 10 "broken" "Editor" (.error ⟨"create failed"⟩),
          .create 11 "ops" "Admin" (.ok ⟨101, 11, "sa-ops", "ops", true⟩),
          .update 3 101 (some ⟨"update failed"⟩)] :=
  ⟨(UpgradeServiceAccounts_spec exampleStore 0).imp fun _ h => ⟨h.1, h.2.1⟩, by rfl⟩

/-- A row is in the join exactly when its key and its user are in their tables
and the key's `service_account_id` is the user's id. -/
theorem mem_joinUser (db : Tables) (row : ApiKey × User) :
    row ∈ joinUser db ↔
      row.1 ∈ db.api_key ∧ row.2 ∈ db.user ∧ row.1.ServiceAccountId = some row.2.Id := by
  rcases row with ⟨k, u⟩
  simp only [joinUser, List.mem_flatMap, List.mem_map, List.mem_filter, beq_iff_eq,
    Prod.mk.injEq]
  constructor
  · rintro ⟨k', hk', u', ⟨hu', hid⟩, rfl, rfl⟩
    exact ⟨hk', hu', hid⟩
  · rintro ⟨hk, hu, hid⟩
    exact ⟨k, hk, u, ⟨hu, hid⟩, rfl, rfl⟩

/-- What the WHERE condition of the token query says of a joined row. -/
theorem tokenWhere_iff (orgID serviceAccount now : Int) (row : ApiKey × User) :
    tokenWhere orgID serviceAccount now row = true ↔
      row.2.OrgId = orgID ∧ row.2.Id = serviceAccount ∧
        (row.1.Expires = none ∨ ∃ e, row.1.Expires = some e ∧ e ≥ now) := by
  simp only [tokenWhere, Bool.and_eq_true, Bool.or_eq_true, beq_iff_eq, and_assoc]
  cases row.1.Expires <;> simp

/-- C8: `ListTokens` over the query as filter, sort and take, for a column
order `le` that is transitive and total, at call time `now`.  The returned list
is never nil.  Every returned token is a key row joined to a user with
`id = serviceAccount` and `org_id = orgID`, and its `expires` is NULL or at
least `now`.  The list is in non-decreasing order of `name`, has at most 100
entries and is empty when no row matches.  When the session does not fail the
error is nil and the list is the first 100 of all matching rows in that
order. -/
theorem ListTokens_spec (le : String → String → Bool)
    (trans : ∀ a b c, le a b = true → le b c = true → le a c = true)
    (total : ∀ a b, le a b = true ∨ le b a = true)
    (db : Tables) (fault : Option (Nat × GoError)) (now orgID serviceAccount : Int) :
    ∃ tokens : List ApiKey,
      (ListTokens le db fault now orgID serviceAccount).1 = some tokens ∧
      (∀ k ∈ tokens, k ∈ db.api_key ∧
        (∃ u ∈ db.user, u.Id = serviceAccount ∧ u.OrgId = orgID ∧
          k.ServiceAccountId = some u.Id) ∧
        (k.Expires = none ∨ ∃ e, k.Expires = some e ∧ e ≥ now)) ∧
      tokens.Pairwise (fun a b => le a.Name b.Name = true) ∧
      tokens.length ≤ 100 ∧
      ((∀ row ∈ joinUser db, tokenWhere orgID serviceAccount now row = false) →
        tokens = []) ∧
      (fault = none →
        (ListTokens le db fault now orgID serviceAccount).2 = none ∧
        ∃ all : List ApiKey,
          all.Perm
            (((joinUser db).filter (tokenWhere orgID serviceAccount now)).map Prod.fst) ∧
          all.Pairwise (fun a b => le a.Name b.Name = true) ∧
          tokens = all.take 100) := by
  haveI : IsTotal (ApiKey × User) (nameLe le) := ⟨fun a b => total a.1.Name b.1.Name⟩
  haveI : IsTrans (ApiKey × User) (nameLe le) :=
    ⟨fun a b c => trans a.1.Name b.1.Name c.1.Name⟩
  have hsorted := List.sorted_insertionSort (nameLe le)
    ((joinUser db).filter (tokenWhere orgID serviceAccount now))
  have hperm := List.perm_insertionSort (nameLe le)
    ((joinUser db).filter (tokenWhere orgID serviceAccount now))
  have hpw : ∀ l : List (ApiKey × User), l.Pairwise (nameLe le) →
      (l.map Prod.fst).Pairwise (fun a b => le a.Name b.Name = true) := by
    intro l hl
    rw [List.pairwise_map]
    exact hl
  have hmem : ∀ k ∈ findTokens le db orgID serviceAccount now, k ∈ db.api_key ∧
      (∃ u ∈ db.user, u.Id = serviceAccount ∧ u.OrgId = orgID ∧
        k.ServiceAccountId = some u.Id) ∧
      (k.Expires = none ∨ ∃ e, k.Expires = some e ∧ e ≥ now) := by
    intro k hk
    simp only [findTokens, List.mem_map] at hk
    obtain ⟨row, hrow, rfl⟩ := hk
    have hrow' := hperm.subset (List.mem_of_mem_take hrow)
    rw [List.mem_filter, mem_joinUser, tokenWhere_iff] at hrow'
    obtain ⟨⟨hk, hu, hid⟩, horg, huid, hexp⟩ := hrow'
    exact ⟨hk, ⟨row.2, hu, huid, horg, hid⟩, hexp⟩
  have hord : (findTokens le db orgID serviceAccount now).Pairwise
      (fun a b => le a.Name b.Name = true) :=
    hpw _ (hsorted.sublist (List.take_sublist _ _))
  have hlen : (findTokens le db orgID serviceAccount now).length ≤ 100 := by
    simp [findTokens, List.length_take]
  have hempty : (∀ row ∈ joinUser db, tokenWhere orgID serviceAccount now row = false) →
      findTokens le db orgID serviceAccount now = [] := by
    intro hnone
    have : (joinUser db).filter (tokenWhere orgID serviceAccount now) = [] := by
      rw [List.filter_eq_nil_iff]
      intro row hrow
      simp [hnone row hrow]
    simp [findTokens, this]
  cases fault with
  | none =>
    refine ⟨findTokens le db orgID serviceAccount now, by simp [ListTokens], hmem, hord, hlen,
      hempty, fun _ => ⟨by simp [ListTokens], ?_⟩⟩
    refine ⟨(((joinUser db).filter (tokenWhere orgID serviceAccount now)).insertionSort
      (nameLe le)).map Prod.fst, hperm.map _, hpw _ hsorted, ?_⟩
    simp [findTokens, List.map_take]
  | some f =>
    refine ⟨(findTokens le db orgID serviceAccount now).take f.1, by simp [ListTokens],
      fun k hk => hmem k (List.mem_of_mem_take hk),
      hord.sublist (List.take_sublist _ _),
      le_trans (List.take_sublist _ _).length_le hlen, ?_,
      fun h => by simp at h⟩
    intro hnone
    simp [hempty hnone]

/-- The order by code points is transitive. -/
theorem codepointLe_trans (a b c : String) (h1 : codepointLe a b = true)
    (h2 : codepointLe b c = true) : codepointLe a c = true := by
  simp only [codepointLe, decide_eq_true_eq] at *
  exact le_trans h1 h2

/-- The order by code points is total. -/
theorem codepointLe_total (a b : String) : codepointLe a b = true ∨ codepointLe b a = true := by
  simp only [codepointLe, decide_eq_true_eq]
  exact le_total _ _

/-- Runs of `ListTokens` on the example tables at time 50: of the keys of
account 42 the expired one is left out and the two live ones come back in order
of name; account 44 has no key and gets the empty, non-nil list, and so does a
session that fails before any row is read. -/
theorem ListTokens_spec_witness :
    (∀ a b c, codepointLe a b = true → codepointLe b c = true → codepointLe a c = true) ∧
    (∀ a b, codepointLe a b = true ∨ codepointLe b a = true) ∧
    (∃ tokens : List ApiKey,
      (ListTokens codepointLe exampleTables none 50 1 42).1 = some tokens ∧
      tokens.Pairwise (fun a b => codepointLe a.Name b.Name = true) ∧
      tokens.length ≤ 100) ∧
    ListTokens codepointLe exampleTables none 50 1 42
      = (some [⟨2, 1, "alpha", "k2", "Viewer", some 100, some 42⟩,
          ⟨1, 1, "zeta", "k1", "Viewer", none, some 42⟩], none) ∧
    ListTokens codepointLe exampleTables none 50 1 44 = (some [], none) ∧
    ListTokens codepointLe exampleTables (some (0, ⟨"database is locked"⟩)) 50 1 42
      = (some [], some ⟨"database is locked"⟩) :=
  ⟨codepointLe_trans, codepointLe_total,
    (ListTokens_spec codepointLe codepointLe_trans codepointLe_total exampleTables none 50 1
      42).imp fun _ h => ⟨h.1, h.2.2.1, h.2.2.2.1⟩,
    by decide, by decide, by decide⟩

end database

/-! ## Properties of the test wiring and of the secrets service -/

namespace manager

/-- C5: the feature-toggle wiring of `SetupTestService`.  The toggle set of
`featuremgmt.WithToggles("envelopeEncryption")` reports
`IsEnvelopeEncryptionEnabled() = true`; the settings object over a `Cfg` whose
`IsFeatureToggleEnabled` is that set's `IsEnabled` reports
`IsFeatureToggleEnabled("envelopeEncryption") = true`, for every loaded ini
file.  For every store and every `setting.SecretKey`: when the ini text loads,
both assertions of the helper get the value true and the secrets service is
constructed with exactly these settings; when it does not load, the helper
stops before any assertion. -/
theorem SetupTestService_toggle {R E K St S : Type} (SecretKey : String)
    (iniLoad : String → Except GoError R) (encryption : E)
    (kmsProviders : E → setting.OSSImpl R → K)
    (ProvideSecretsService : St → K → E → setting.OSSImpl R → Except GoError S)
    (store : St) :
    (featuremgmt.WithToggles ["envelopeEncryption"]).IsEnvelopeEncryptionEnabled = true ∧
    (∀ raw : R, (testSettings raw).Cfg.IsFeatureToggleEnabled
        = (featuremgmt.WithToggles ["envelopeEncryption"]).IsEnabled ∧
      (testSettings raw).IsFeatureToggleEnabled "envelopeEncryption" = true) ∧
    (∀ raw,
      iniLoad ("\n\t\t[security]\n\t\tsecret_key = " ++
          (if SecretKey.length > 0 then SecretKey else "SdlklWklckeLS")) = .ok raw →
      (SetupTestService SecretKey iniLoad encryption kmsProviders ProvideSecretsService
          store).asserts = [true, true] ∧
      (SetupTestService SecretKey iniLoad encryption kmsProviders ProvideSecretsService
          store).result
        = (ProvideSecretsService store (kmsProviders encryption (testSettings raw)) encryption
            (testSettings raw)).toOption) ∧
    (∀ err,
      iniLoad ("\n\t\t[security]\n\t\tsecret_key = " ++
          (if SecretKey.length > 0 then SecretKey else "SdlklWklckeLS")) = .error err →
      SetupTestService SecretKey iniLoad encryption kmsProviders ProvideSecretsService store
        = { asserts := [], result := none }) := by
  have htog : (featuremgmt.WithToggles ["envelopeEncryption"]).IsEnabled "envelopeEncryption"
      = true := by
    simp [featuremgmt.WithToggles, featuremgmt.FeatureToggles.IsEnabled]
  refine ⟨htog, ?_, ?_, ?_⟩
  · intro raw
    exact ⟨rfl, htog⟩
  · intro raw h
    simp only [SetupTestService, h]
    cases hp : ProvideSecretsService store (kmsProviders encryption (testSettings raw))
        encryption (testSettings raw) with
    | error e =>
      simp only [testSettings] at hp
      simp [hp, setting.OSSImpl.IsFeatureToggleEnabled,
        featuremgmt.FeatureToggles.IsEnvelopeEncryptionEnabled, htog, Except.toOption]
    | ok svc =>
      simp only [testSettings] at hp
      simp [hp, setting.OSSImpl.IsFeatureToggleEnabled,
        featuremgmt.FeatureToggles.IsEnvelopeEncryptionEnabled, htog, Except.toOption]
  · intro err h
    simp only [SetupTestService, h]

/-- A run of `SetupTestService` with an ini loader that accepts every text and
a constructor that returns the answer of the settings to the
envelope-encryption toggle query. -/
theorem SetupTestService_toggle_witness :
    @SetupTestService String Unit Unit Unit Bool "" (fun text => .ok text)
      () (fun _ _ => ()) (fun _ _ _ settings =>
        .ok (settings.IsFeatureToggleEnabled "envelopeEncryption")) ()
      = { asserts := [true, true], result := some true } ∧
    (featuremgmt.WithToggles ["envelopeEncryption"]).IsEnvelopeEncryptionEnabled = true :=
  ⟨by rfl,
    (@SetupTestService_toggle String Unit Unit Unit Bool ""
      (fun text => .ok text) () (fun _ _ => ()) (fun _ _ _ settings =>
        .ok (settings.IsFeatureToggleEnabled "envelopeEncryption")) ()).1⟩

end manager

namespace secrets

/-- The parse of a header followed by a ciphertext finds both again. -/
theorem parseHeader_header (providerId : ProviderId) (ct : Bytes) :
    parseHeader (header providerId ++ ct) = .envelope providerId.val ct := by
  simp [parseHeader, header]

/-- The registry of the test service resolves its provider id to the local
provider. -/
theorem testRegistry_key (providerId : ProviderId) (secretKey : Bytes)
    (derive : Bytes → Scope → Bytes) (scope : Scope) :
    Registry.DeriveOrFetchKey [(providerId, .Local secretKey derive)] providerId.val scope
      = .ok (derive secretKey scope) := by
  simp [Registry.DeriveOrFetchKey, Registry.resolve, Provider.DeriveOrFetchKey]

/-- On a consistent cache `GetOrCreate` yields the key of the registry and
leaves a consistent cache. -/
theorem GetOrCreate_consistent (reg : Registry) (c : DataKeyCache) (ttl now : Nat)
    (providerId : Bytes) (scope : Scope) (key : Bytes)
    (hc : CacheConsistent reg c) (hk : reg.DeriveOrFetchKey providerId scope = .ok key) :
    ∃ c', c.GetOrCreate reg ttl now providerId scope = (.ok key, c') ∧
      CacheConsistent reg c' := by
  unfold DataKeyCache.GetOrCreate
  cases hl : c.lookup ttl now providerId scope with
  | some k =>
    refine ⟨c, ?_, hc⟩
    unfold DataKeyCache.lookup at hl
    cases hf : c.find? (fun e => e.isFor providerId scope) with
    | none => simp [hf] at hl
    | some e =>
      have hmem := List.mem_of_find?_eq_some hf
      have hfor := List.find?_some hf
      simp only [CacheEntry.isFor, Bool.and_eq_true, beq_iff_eq] at hfor
      have he := hc e hmem
      rw [hfor.1, hfor.2, hk] at he
      simp only [hf] at hl
      split at hl
      · simp only [Option.some.injEq] at hl
        injection he with he
        simp [← hl, he]
      · simp at hl
  | none =>
    refine ⟨⟨providerId, scope, key, now⟩ :: c.Invalidate providerId scope, by simp [hk], ?_⟩
    intro e he
    rcases List.mem_cons.1 he with rfl | he
    · exact hk
    · exact hc e (List.mem_of_mem_filter he)

/-- The toggle query of the test service answers true for envelope encryption. -/
theorem testService_toggle (cipher : Cipher) (legacy : LegacyScheme)
    (derive : Bytes → Scope → Bytes) (providerId : ProviderId) (ttl : Nat) (secretKey : Bytes)
    (cache : DataKeyCache) :
    (testService cipher legacy derive providerId ttl secretKey cache).IsFeatureToggleEnabled
      "envelopeEncryption" = true := by
  simp [testService, featuremgmt.WithToggles, featuremgmt.FeatureToggles.IsEnabled]

/-- Encryption on the test service: it succeeds, the envelope is the header
followed by the cipher's output under the derived key, and the cache stays
consistent. -/
theorem testService_Encrypt (cipher : Cipher) (hlaw : cipher.Lawful) (legacy : LegacyScheme)
    (derive : Bytes → Scope → Bytes) (providerId : ProviderId) (ttl : Nat) (secretKey : Bytes)
    (hlen : ∀ scope, (derive secretKey scope).length = cipher.keyLen)
    (cache : DataKeyCache)
    (hcache : CacheConsistent [(providerId, .Local secretKey derive)] cache)
    (now : Nat) (plaintext : Bytes) (scope : Scope) :
    ∃ ct cache',
      cipher.Encrypt (derive secretKey scope) plaintext = .ok ct ∧
      cipher.Decrypt (derive secretKey scope) ct = .ok plaintext ∧
      (testService cipher legacy derive providerId ttl secretKey cache).Encrypt now plaintext
          scope
        = (.ok (header providerId ++ ct),
            testService cipher legacy derive providerId ttl secretKey cache') ∧
      CacheConsistent [(providerId, .Local secretKey derive)] cache' := by
  obtain ⟨ct, henc, hdec⟩ := hlaw (derive secretKey scope) plaintext (hlen scope)
  obtain ⟨c', hget, hc'⟩ := GetOrCreate_consistent _ cache ttl now providerId.val scope _
    hcache (testRegistry_key providerId secretKey derive scope)
  refine ⟨ct, c', henc, hdec, ?_, hc'⟩
  have ht := testService_toggle cipher legacy derive providerId ttl secretKey cache
  simp only [SecretsService.Encrypt, ht, if_true, SecretsService.envelopeEncrypt]
  simp only [testService] at hget ⊢
  simp only [hget, henc]

/-- Decryption on the test service of a header followed by a ciphertext that
the cipher decrypts under the derived key. -/
theorem testService_Decrypt (cipher : Cipher) (legacy : LegacyScheme)
    (derive : Bytes → Scope → Bytes) (providerId : ProviderId) (ttl : Nat) (secretKey : Bytes)
    (cache : DataKeyCache)
    (hcache : CacheConsistent [(providerId, .Local secretKey derive)] cache)
    (now : Nat) (plaintext ct : Bytes) (scope : Scope)
    (hdec : cipher.Decrypt (derive secretKey scope) ct = .ok plaintext) :
    ((testService cipher legacy derive providerId ttl secretKey cache).Decrypt now
        (header providerId ++ ct) scope).1 = .ok plaintext := by
  obtain ⟨c', hget, _⟩ := GetOrCreate_consistent _ cache ttl now providerId.val scope _
    hcache (testRegistry_key providerId secretKey derive scope)
  simp only [SecretsService.Decrypt, parseHeader_header]
  simp only [testService] at hget ⊢
  simp only [hget, hdec]

/-- The example cipher keeps the contract of the Cipher Primitive. -/
theorem shiftCipher_lawful : shiftCipher.Lawful := by
  intro key plaintext hk
  match key, hk with
  | [k], _ =>
    refine ⟨plaintext.sum :: plaintext.map (· + k), rfl, ?_⟩
    have : (plaintext.map (· + k)).map (· - k) = plaintext := by
      simp [List.map_map, Function.comp_def]
    simp [shiftCipher, this]

/-- C1: round trip of the secrets service wired as in `SetupTestService`
(envelope encryption enabled, local secret-key provider), for a cipher that
keeps the contract of the Cipher Primitive, a key derivation that yields keys
of the cipher's length and a cache that holds keys of the registry.  For every
plaintext, the empty one included, every scope and all times of the two calls,
`Encrypt` succeeds, and `Decrypt` of the envelope it returned, on the service
as `Encrypt` left it, succeeds and returns exactly the plaintext. -/
theorem Encrypt_Decrypt_roundtrip (cipher : Cipher) (hlaw : cipher.Lawful)
    (legacy : LegacyScheme) (derive : Bytes → Scope → Bytes) (providerId : ProviderId)
    (ttl : Nat) (secretKey : Bytes)
    (hlen : ∀ scope, (derive secretKey scope).length = cipher.keyLen)
    (cache : DataKeyCache)
    (hcache : CacheConsistent [(providerId, .Local secretKey derive)] cache)
    (now later : Nat) (plaintext : Bytes) (scope : Scope) :
    ∃ envelope svc',
      (testService cipher legacy derive providerId ttl secretKey cache).Encrypt now plaintext
        scope = (.ok envelope, svc') ∧
      (svc'.Decrypt later envelope scope).1 = .ok plaintext := by
  obtain ⟨ct, c', _, hdec, hE, hc'⟩ := testService_Encrypt cipher hlaw legacy derive providerId
    ttl secretKey hlen cache hcache now plaintext scope
  exact ⟨_, _, hE, testService_Decrypt cipher legacy derive providerId ttl secretKey c' hc'
    later plaintext ct scope hdec⟩

/-- A round trip with the example cipher: the empty plaintext on a fresh service with the
provider id `secretKey.v1`. -/
theorem Encrypt_Decrypt_roundtrip_witness :
    shiftCipher.Lawful ∧
    (∀ scope, (sumDerive (ascii "SdlklWklckeLS") scope).length = shiftCipher.keyLen) ∧
    CacheConsistent [(⟨ascii "secretKey.v1", by decide⟩,
      .Local (ascii "SdlklWklckeLS") sumDerive)] [] ∧
    ∃ envelope svc',
      (testService shiftCipher plainLegacy sumDerive ⟨ascii "secretKey.v1", by decide⟩ 900
        (ascii "SdlklWklckeLS") []).Encrypt 0 [] "org:1" = (.ok envelope, svc') ∧
      (svc'.Decrypt 60 envelope "org:1").1 = .ok [] :=
  ⟨shiftCipher_lawful, fun _ => rfl, fun _ h => by simp at h,
    Encrypt_Decrypt_roundtrip shiftCipher shiftCipher_lawful plainLegacy sumDerive
      ⟨ascii "secretKey.v1", by decide⟩ 900 (ascii "SdlklWklckeLS") (fun _ => rfl) []
      (fun _ h => by simp at h) 0 60 [] "org:1"⟩

/-- With the toggle on, an envelope that `Encrypt` returns is the header
followed by a ciphertext of the cipher. -/
theorem Encrypt_ok_layout (svc : SecretsService) (now : Nat) (plaintext : Bytes) (scope : Scope)
    (envelope : Bytes) (svc' : SecretsService)
    (ht : svc.IsFeatureToggleEnabled "envelopeEncryption" = true)
    (h : svc.Encrypt now plaintext scope = (.ok envelope, svc')) :
    ∃ rawKey ct, svc.cipher.Encrypt rawKey plaintext = .ok ct ∧
      envelope = (1 : Byte) ::
        (⟨svc.activeProvider.val.length, svc.activeProvider.property⟩ : Byte) ::
          (svc.activeProvider.val ++ ct) := by
  simp only [SecretsService.Encrypt, ht, if_true, SecretsService.envelopeEncrypt] at h
  rcases hg : svc.cache.GetOrCreate svc.providers svc.ttl now svc.activeProvider.val scope
    with ⟨r, c⟩
  rw [hg] at h
  cases r with
  | error e => simp at h
  | ok rawKey =>
    simp only at h
    cases he : svc.cipher.Encrypt rawKey plaintext with
    | error e => rw [he] at h; simp at h
    | ok ct =>
      rw [he] at h
      simp only [Prod.mk.injEq, Except.ok.injEq] at h
      exact ⟨rawKey, ct, he, by rw [← h.1]; rfl⟩

/-- C2: the envelope layout.  With envelope encryption enabled, an envelope
that `Encrypt` returns is the byte `0x01`, the byte `n`, the `n` bytes of the
active provider id and then a ciphertext of the cipher for the plaintext, on
every service.  On the service wired as in `SetupTestService`, `Encrypt`
returns such an envelope for every provider id, plaintext and scope, the
ciphertext being the one under the derived key.  In the scenario
`Encrypt("hello", "org:1")` with provider `local`, the envelope starts with
the bytes `0x01` and `5`, and `Decrypt` of it returns `hello`. -/
theorem Encrypt_envelope_layout (cipher : Cipher) (hlaw : cipher.Lawful)
    (legacy : LegacyScheme) (derive : Bytes → Scope → Bytes) (ttl : Nat) (secretKey : Bytes)
    (hlen : ∀ scope, (derive secretKey scope).length = cipher.keyLen) (now later : Nat) :
    (∀ (svc : SecretsService) (plaintext : Bytes) (scope : Scope) (envelope : Bytes)
        (svc' : SecretsService),
      svc.IsFeatureToggleEnabled "envelopeEncryption" = true →
      svc.Encrypt now plaintext scope = (.ok envelope, svc') →
      ∃ rawKey ct, svc.cipher.Encrypt rawKey plaintext = .ok ct ∧
        envelope = (1 : Byte) ::
          (⟨svc.activeProvider.val.length, svc.activeProvider.property⟩ : Byte) ::
            (svc.activeProvider.val ++ ct)) ∧
    (∀ (providerId : ProviderId) (cache : DataKeyCache),
      CacheConsistent [(providerId, .Local secretKey derive)] cache →
      ∀ (plaintext : Bytes) (scope : Scope), ∃ ct svc',
        cipher.Encrypt (derive secretKey scope) plaintext = .ok ct ∧
        (testService cipher legacy derive providerId ttl secretKey cache).Encrypt now plaintext
            scope
          = (.ok ((1 : Byte) :: (⟨providerId.val.length, providerId.property⟩ : Byte) ::
              (providerId.val ++ ct)), svc')) ∧
    (∃ envelope svc',
      (testService cipher legacy derive ⟨ascii "local", by decide⟩ ttl secretKey []).Encrypt now
        (ascii "hello") "org:1" = (.ok envelope, svc') ∧
      envelope[0]? = some 1 ∧ envelope[1]? = some 5 ∧
      (svc'.Decrypt later envelope "org:1").1 = .ok (ascii "hello")) := by
  refine ⟨?_, ?_, ?_⟩
  · intro svc plaintext scope envelope svc' ht h
    exact Encrypt_ok_layout svc now plaintext scope envelope svc' ht h
  · intro providerId cache hcache plaintext scope
    obtain ⟨ct, c', henc, _, hE, _⟩ := testService_Encrypt cipher hlaw legacy derive providerId
      ttl secretKey hlen cache hcache now plaintext scope
    exact ⟨ct, _, henc, hE⟩
  · obtain ⟨ct, c', _, hdec, hE, hc'⟩ := testService_Encrypt cipher hlaw legacy derive
      ⟨ascii "local", by decide⟩ ttl secretKey hlen [] (fun _ h => by simp at h) now
      (ascii "hello") "org:1"
    refine ⟨_, _, hE, ?_, ?_, testService_Decrypt cipher legacy derive _ ttl secretKey c' hc'
      later (ascii "hello") ct "org:1" hdec⟩
    · simp [header]
    · simp [header]
      decide

/-- The scenario with the example cipher: the scenario envelope, byte for byte. -/
theorem Encrypt_envelope_layout_witness :
    shiftCipher.Lawful ∧
    (∀ scope, (sumDerive (ascii "SdlklWklckeLS") scope).length = shiftCipher.keyLen) ∧
    ((testService shiftCipher plainLegacy sumDerive ⟨ascii "local", by decide⟩ 900
        (ascii "SdlklWklckeLS") []).Encrypt 0 (ascii "hello") "org:1").1
      = .ok [1, 5, 108, 111, 99, 97, 108, 20, 103, 100, 107, 107, 110] ∧
    ∃ envelope svc',
      (testService shiftCipher plainLegacy sumDerive ⟨ascii "local", by decide⟩ 900
        (ascii "SdlklWklckeLS") []).Encrypt 0 (ascii "hello") "org:1" = (.ok envelope, svc') ∧
      envelope[0]? = some 1 ∧ envelope[1]? = some 5 ∧
      (svc'.Decrypt 60 envelope "org:1").1 = .ok (ascii "hello") :=
  ⟨shiftCipher_lawful, fun _ => rfl, by rfl,
    (Encrypt_envelope_layout shiftCipher shiftCipher_lawful plainLegacy sumDerive 900
      (ascii "SdlklWklckeLS") (fun _ => rfl) 0 60).2.2⟩

end secrets
